import Mathlib

/-!
Verification of the indent-guide layout engine
(src/crates/ui/src/components/indent_guides.rs) and the scrollbar geometry
and pointer-interaction logic (src/crates/workspace/src/scrollbar.rs).

Machine integers (`usize`) are modelled as `Nat`; the source never
overflows nor underflows on the executions the theorems cover, and where
Rust would panic on underflow the invariants proved below show the
subtraction is in range.  `f32`/`f64` pixel and fraction values are
modelled as `ℚ` (exact arithmetic).
-/

/-- Mirror of `IndentGuideLayout { offset: Point<usize>, length: usize }`:
`column` is `offset.x` (the indentation level), `row` is `offset.y`
(the absolute start row), `length` the number of rows spanned. -/
structure IndentGuideLayout where
  column : Nat
  row : Nat
  length : Nat
deriving DecidableEq, Repr

/-- The per-row update loop at the end of each iteration of
`compute_indent_guides`: `indent.length = current_row - indent.offset.y + 1`
for every guide still on the stack. -/
def updateLengths (currentRow : Nat) (stack : List IndentGuideLayout) :
    List IndentGuideLayout :=
  stack.map fun g => { g with length := currentRow - g.row + 1 }

/-- The `Ordering::Less` arm: pop `n` guides off the stack and push each
popped guide onto the output list.  The stack is a list with its top at the
head; the `[]` case is the `None` arm of `indent_stack.pop()`, which the
source silently skips. -/
def popGuides :
    Nat → List IndentGuideLayout × List IndentGuideLayout →
      List IndentGuideLayout × List IndentGuideLayout
  | 0, st => st
  | n + 1, (guides, stack) =>
    match stack with
    | [] => popGuides n (guides, [])
    | g :: rest => popGuides n (guides ++ [g], rest)

/-- The `Ordering::Greater` arm: `for new_depth in current_depth..depth`
push `{ offset: (new_depth, current_row), length: current_row }`.  Pushing
onto a head-is-top stack is `cons`, so the loop is a left fold over
`range' current_depth (depth - current_depth)`. -/
def pushGuides (currentDepth depth currentRow : Nat)
    (stack : List IndentGuideLayout) : List IndentGuideLayout :=
  (List.range' currentDepth (depth - currentDepth)).foldl
    (fun s newDepth => { column := newDepth, row := currentRow, length := currentRow } :: s)
    stack

/-- One iteration of the `for (row, &depth)` loop of
`compute_indent_guides`: the `match depth.cmp(&current_depth)` (here a
two-way `if`, covering Less / Greater / Equal) followed by the
length-update loop over the stack. -/
def processRow (currentRow depth : Nat)
    (st : List IndentGuideLayout × List IndentGuideLayout) :
    List IndentGuideLayout × List IndentGuideLayout :=
  let currentDepth := st.2.length
  let st2 :=
    if depth < currentDepth then
      popGuides (currentDepth - depth) st
    else if currentDepth < depth then
      (st.1, pushGuides currentDepth depth currentRow st.2)
    else st
  (st2.1, updateLengths currentRow st2.2)

/-- The full loop of `compute_indent_guides`, carrying the absolute row
`current_row = row + offset` (the recursion starts at `offset`). -/
def processRows (currentRow : Nat) (indents : List Nat)
    (st : List IndentGuideLayout × List IndentGuideLayout) :
    List IndentGuideLayout × List IndentGuideLayout :=
  match indents with
  | [] => st
  | depth :: rest => processRows (currentRow + 1) rest (processRow currentRow depth st)

/-- `fn compute_indent_guides(indents: &[usize], offset: usize)`:
run the loop from an empty output and empty stack, then
`indent_guides.extend(indent_stack)` — the `SmallVec` iterates from the
bottom of the stack, which is the reverse of our head-is-top list. -/
def compute_indent_guides (indents : List Nat) (offset : Nat) :
    List IndentGuideLayout :=
  let st := processRows offset indents ([], [])
  st.1 ++ st.2.reverse

/-- `popGuides` with the `None` arm of `indent_stack.pop()` made a failure
instead of a silent no-op, to state that the arm is unreachable. -/
def popGuidesChecked :
    Nat → List IndentGuideLayout × List IndentGuideLayout →
      Option (List IndentGuideLayout × List IndentGuideLayout)
  | 0, st => some st
  | n + 1, (guides, stack) =>
    match stack with
    | [] => none
    | g :: rest => popGuidesChecked n (guides ++ [g], rest)

/-- `processRow` built on `popGuidesChecked`. -/
def processRowChecked (currentRow depth : Nat)
    (st : List IndentGuideLayout × List IndentGuideLayout) :
    Option (List IndentGuideLayout × List IndentGuideLayout) :=
  let currentDepth := st.2.length
  let st2opt :=
    if depth < currentDepth then
      popGuidesChecked (currentDepth - depth) st
    else if currentDepth < depth then
      some (st.1, pushGuides currentDepth depth currentRow st.2)
    else some st
  match st2opt with
  | none => none
  | some st2 => some (st2.1, updateLengths currentRow st2.2)

/-- The loop built on `processRowChecked`. -/
def processRowsChecked (currentRow : Nat) (indents : List Nat)
    (st : List IndentGuideLayout × List IndentGuideLayout) :
    Option (List IndentGuideLayout × List IndentGuideLayout) :=
  match indents with
  | [] => some st
  | depth :: rest =>
    match processRowChecked currentRow depth st with
    | none => none
    | some st2 => processRowsChecked (currentRow + 1) rest st2

/-- `compute_indent_guides` with stack underflow made a failure. -/
def compute_indent_guides_checked (indents : List Nat) (offset : Nat) :
    Option (List IndentGuideLayout) :=
  match processRowsChecked offset indents ([], []) with
  | none => none
  | some st => some (st.1 ++ st.2.reverse)

/-- Depth of window row `i` (0 when out of range; only in-range uses occur
in the theorems). -/
def depthAt (indents : List Nat) (i : Nat) : Nat := indents.getD i 0

/-- Guide `g` covers cell `(c, r)` (column `c`, absolute row `r`). -/
def covers (g : IndentGuideLayout) (c r : Nat) : Prop :=
  c = g.column ∧ g.row ≤ r ∧ r < g.row + g.length

instance (g : IndentGuideLayout) (c r : Nat) : Decidable (covers g c r) := by
  unfold covers
  infer_instance

/-- Two guides at the same column have disjoint row ranges. -/
def sameColDisjoint (g1 g2 : IndentGuideLayout) : Prop :=
  g1.column = g2.column → g1.row + g1.length ≤ g2.row ∨ g2.row + g2.length ≤ g1.row

/-- A paintable rectangle of the indent-guide decoration: the pair
`(Bounds::new(origin, size), color)` with the color dropped (theme lookup
is external) and `Pixels` as `ℚ`. -/
structure GuideRect where
  x : ℚ
  y : ℚ
  w : ℚ
  h : ℚ
deriving DecidableEq, Repr

/-- The `prepaint_fn` closure of `impl Into<UniformListDecoration> for
IndentGuides`: run `compute_indent_guides(visible_entries,
visible_range.start)` and map every layout to the rectangle
`Bounds::new(bounds.origin + point(offset.x * indent_size, offset.y *
item_height), size(px(1.), length * item_height))`.  `visibleEntries` is
the result of the injected depth callback, `originX`/`originY` the origin
of the `bounds` argument. -/
def prepaint_fn (visibleEntries : List Nat) (visibleStart : Nat)
    (originX originY indentSize itemHeight : ℚ) : List GuideRect :=
  (compute_indent_guides visibleEntries visibleStart).map fun layout =>
    { x := originX + (layout.column : ℚ) * indentSize
      y := originY + (layout.row : ℚ) * itemHeight
      w := 1
      h := (layout.length : ℚ) * itemHeight }

/-- The prepaint positioning as the specification words it: the vertical
offset is window-relative, `(start_row - row_offset) * row_height_px`.
Stated only to be compared with `prepaint_fn`, which is translated from
the source. -/
def prepaint_fn_window_relative (visibleEntries : List Nat) (visibleStart : Nat)
    (originX originY indentSize itemHeight : ℚ) : List GuideRect :=
  (compute_indent_guides visibleEntries visibleStart).map fun layout =>
    { x := originX + (layout.column : ℚ) * indentSize
      y := originY + ((layout.row : ℚ) - (visibleStart : ℚ)) * itemHeight
      w := 1
      h := (layout.length : ℚ) * itemHeight }

/-- Rust `f64::clamp(lo, hi)` on exact rationals. -/
def clampQ (x lo hi : ℚ) : ℚ := max lo (min x hi)

/-- `MINIMUM_SCROLLBAR_PERCENTAGE_HEIGHT` from `render_vertical_scrollbar`. -/
def minimumScrollbarPercentageHeight : ℚ := 5 / 1000

/-- The thumb-geometry core of `render_vertical_scrollbar`
(src/crates/workspace/src/scrollbar.rs): everything from the
`last_item_size.filter(|_| scrollbar_drag_thumb_offset.get().is_some())?`
line to the `percentage..end_offset` range handed to
`Scrollbar::vertical`.  The `show_scrollbar` visibility gate that precedes
it consults host UI state and is outside the geometry; the returned pair
is `(percentage, end_offset)`.  `dragThumbOffset` models
`scrollbar_drag_thumb_offset.get()`, `lastItemSizeHeight` models
`last_item_size.map(|s| s.contents.height)`, `offsetY` the scroll offset
`base_handle.offset().y`, `viewportHeight` the viewport
`base_handle.bounds().size.height`. -/
def render_vertical_scrollbar (dragThumbOffset : Option ℚ)
    (lastItemSizeHeight : Option ℚ) (offsetY viewportHeight : ℚ) :
    Option (ℚ × ℚ) :=
  match lastItemSizeHeight.filter (fun _ => dragThumbOffset.isSome) with
  | none => none
  | some totalListLength =>
    let currentOffset := |min offsetY 0|
    let percentage := currentOffset / totalListLength
    let endOffset := (currentOffset + viewportHeight) / totalListLength
    let overshoot := clampQ (endOffset - 1) 0 1
    let percentage := if 0 < overshoot then percentage - overshoot else percentage
    if 1 < percentage + minimumScrollbarPercentageHeight ∨ totalListLength < endOffset then
      none
    else if totalListLength < viewportHeight then
      none
    else
      some (percentage, clampQ endOffset (percentage + minimumScrollbarPercentageHeight) 1)

/-- `end = (|current_offset| + viewport_len) / content_len`, the raw end
fraction before any clamping (spec section 4.3). -/
def specRawEnd (contentLen offsetY viewportHeight : ℚ) : ℚ :=
  (|min offsetY 0| + viewportHeight) / contentLen

/-- The start fraction after the overshoot correction of spec section 4.3:
`|min(current_offset_px, 0)| / content_len` minus the excess
`(end - 1.0)` clamped to `[0, 1]`. -/
def specStartFraction (contentLen offsetY viewportHeight : ℚ) : ℚ :=
  |min offsetY 0| / contentLen -
    clampQ (specRawEnd contentLen offsetY viewportHeight - 1) 0 1

/-- The hide conditions exactly as the claim lists them: content fits
within the viewport (`content_len_px <= viewport_len_px`), no drag
context or content size tracked, start fraction plus the `0.005` minimum
thumb size would exceed `1.0`, or the computed end exceeds the known
content length.  Stated only to be compared with
`render_vertical_scrollbar`, which is translated from the source. -/
def thumbHiddenSpec (dragThumbOffset : Option ℚ) (lastItemSizeHeight : Option ℚ)
    (offsetY viewportHeight : ℚ) : Prop :=
  match dragThumbOffset, lastItemSizeHeight with
  | none, _ => True
  | some _, none => True
  | some _, some contentLen =>
    contentLen ≤ viewportHeight ∨
    1 < specStartFraction contentLen offsetY viewportHeight +
        minimumScrollbarPercentageHeight ∨
    contentLen < specRawEnd contentLen offsetY viewportHeight

/-- `thumbHiddenSpec` with the content-fits condition corrected to the
strict comparison the source performs (`total_list_length <
bounds().size.height`): at `content_len_px = viewport_len_px` the source
still returns a thumb. -/
def thumbHiddenAmended (dragThumbOffset : Option ℚ) (lastItemSizeHeight : Option ℚ)
    (offsetY viewportHeight : ℚ) : Prop :=
  match dragThumbOffset, lastItemSizeHeight with
  | none, _ => True
  | some _, none => True
  | some _, some contentLen =>
    contentLen < viewportHeight ∨
    1 < specStartFraction contentLen offsetY viewportHeight +
        minimumScrollbarPercentageHeight ∨
    contentLen < specRawEnd contentLen offsetY viewportHeight

/-- `enum ScrollbarKind { Horizontal, Vertical }`. -/
inductive ScrollbarKind where
  | Horizontal
  | Vertical
deriving DecidableEq, Repr

/-- `Bounds<Pixels>` restricted to what the handlers read. -/
structure QBounds where
  originX : ℚ
  originY : ℚ
  width : ℚ
  height : ℚ
deriving DecidableEq, Repr

/-- `Bounds::contains(&point)` (gpui, external collaborator): both edges
inclusive; the claims do not depend on edge inclusivity. -/
def containsPoint (b : QBounds) (posX posY : ℚ) : Bool :=
  decide (b.originX ≤ posX) && decide (posX ≤ b.originX + b.width) &&
    decide (b.originY ≤ posY) && decide (posY ≤ b.originY + b.height)

/-- The mutable state the pointer handlers touch:
`scrollbar_drag_state` (`Rc<Cell<Option<f32>>>`, `none` = Idle,
`some anchor` = Dragging) and the scroll offset of `base_handle`. -/
structure MouseState where
  drag : Option ℚ
  offsetX : ℚ
  offsetY : ℚ
deriving DecidableEq, Repr

/-- The `MouseDownEvent` handler registered in `Scrollbar::paint`:
inside the hitbox but outside the thumb it jumps (sets the offset along
the scrollbar's axis, leaving the drag cell untouched); inside the thumb
it stores the drag anchor. `bubble` is `phase.bubble()`,
`lastItemSize` is `scroll.last_item_size` as `(contents.width,
contents.height)`. -/
def onMouseDown (kind : ScrollbarKind) (bubble : Bool)
    (bounds thumbBounds : QBounds) (lastItemSize : Option (ℚ × ℚ))
    (thumbPercentageSize : ℚ) (posX posY : ℚ) (st : MouseState) : MouseState :=
  if bubble && containsPoint bounds posX posY then
    if !containsPoint thumbBounds posX posY then
      match lastItemSize with
      | some itemSize =>
        match kind with
        | ScrollbarKind.Horizontal =>
          let percentage := (posX - bounds.originX) / bounds.width
          let maxOffset := itemSize.1
          let percentage := min percentage (1 - thumbPercentageSize)
          { st with offsetX := -maxOffset * percentage }
        | ScrollbarKind.Vertical =>
          let percentage := (posY - bounds.originY) / bounds.height
          let maxOffset := itemSize.2
          let percentage := min percentage (1 - thumbPercentageSize)
          { st with offsetY := -maxOffset * percentage }
      | none => st
    else
      let thumbOffset :=
        if kind = ScrollbarKind.Vertical then
          (posY - thumbBounds.originY) / bounds.height
        else
          (posX - thumbBounds.originX) / bounds.width
      { st with drag := some thumbOffset }
  else st

/-- The `MouseMoveEvent` handler of `Scrollbar::paint`: it runs in every
phase (the phase argument is ignored by the source).  `dragging` is
`event.dragging()`; the `if let Some(drag_state) =
drag_state.get().filter(|_| event.dragging())` failure arm resets the
drag cell to `None`. -/
def onMouseMove (kind : ScrollbarKind) (dragging : Bool) (bounds : QBounds)
    (lastItemSize : Option (ℚ × ℚ)) (thumbPercentageSize : ℚ)
    (posX posY : ℚ) (st : MouseState) : MouseState :=
  match st.drag.filter (fun _ => dragging) with
  | some dragState =>
    match lastItemSize with
    | some itemSize =>
      match kind with
      | ScrollbarKind.Horizontal =>
        let maxOffset := itemSize.1
        let percentage := (posX - bounds.originX) / bounds.width - dragState
        let percentage := min percentage (1 - thumbPercentageSize)
        { st with offsetX := -maxOffset * percentage }
      | ScrollbarKind.Vertical =>
        let maxOffset := itemSize.2
        let percentage := (posY - bounds.originY) / bounds.height - dragState
        let percentage := min percentage (1 - thumbPercentageSize)
        { st with offsetY := -maxOffset * percentage }
    | none => st
  | none => { st with drag := none }

/-- The `MouseUpEvent` handler of `Scrollbar::paint`:
`if phase.bubble() { is_dragging.set(None); }`. -/
def onMouseUp (bubble : Bool) (st : MouseState) : MouseState :=
  if bubble then { st with drag := none } else st

/-- One full dispatch of a mouse-up event: the handler runs once in the
capture phase and once in the bubble phase. -/
def processMouseUp (st : MouseState) : MouseState :=
  onMouseUp true (onMouseUp false st)

/-- The loop invariant of `compute_indent_guides` after the first `k` rows
of the window have been processed: `st.1` is the output accumulated so
far, `st.2` the stack of open guides (top at the head). -/
structure EngineInv (indents : List Nat) (offset k : Nat)
    (st : List IndentGuideLayout × List IndentGuideLayout) : Prop where
  stackLen : st.2.length = if k = 0 then 0 else depthAt indents (k - 1)
  stackCols : st.2.map (fun g => g.column) = (List.range st.2.length).reverse
  stackRow : ∀ g ∈ st.2, offset ≤ g.row ∧ g.row < offset + k
  stackLenEq : ∀ g ∈ st.2, g.length = offset + k - g.row
  stackSpan : ∀ g ∈ st.2, ∀ r, g.row ≤ r → r < offset + k →
    g.column < depthAt indents (r - offset)
  stackOpenMax : ∀ g ∈ st.2, offset < g.row →
    depthAt indents (g.row - offset - 1) ≤ g.column
  closedRow : ∀ g ∈ st.1, offset ≤ g.row ∧ 1 ≤ g.length ∧
    g.row + g.length < offset + k
  closedSpan : ∀ g ∈ st.1, ∀ r, g.row ≤ r → r < g.row + g.length →
    g.column < depthAt indents (r - offset)
  closedEndMax : ∀ g ∈ st.1, depthAt indents (g.row + g.length - offset) ≤ g.column
  closedOpenMax : ∀ g ∈ st.1, offset < g.row →
    depthAt indents (g.row - offset - 1) ≤ g.column
  complete : ∀ c r, offset ≤ r → r < offset + k → c < depthAt indents (r - offset) →
    ∃ g ∈ st.1 ++ st.2, covers g c r
  pairwiseClosed : st.1.Pairwise sameColDisjoint
  closedBeforeStack : ∀ g1 ∈ st.1, ∀ g2 ∈ st.2, g1.column = g2.column →
    g1.row + g1.length ≤ g2.row

theorem foldl_cons_eq {α β : Type} (f : α → β) :
    ∀ (l : List α) (init : List β),
      l.foldl (fun s a => f a :: s) init = (l.map f).reverse ++ init := by
  intro l
  induction l with
  | nil => intro init; simp
  | cons a l ih =>
    intro init
    simp [List.foldl_cons, ih (f a :: init)]

theorem pushGuides_eq (currentDepth depth currentRow : Nat)
    (stack : List IndentGuideLayout) :
    pushGuides currentDepth depth currentRow stack =
      ((List.range' currentDepth (depth - currentDepth)).map
        fun nd => { column := nd, row := currentRow, length := currentRow }).reverse
        ++ stack := by
  unfold pushGuides
  exact foldl_cons_eq _ _ _

theorem popGuides_eq :
    ∀ (m : Nat) (guides stack : List IndentGuideLayout), m ≤ stack.length →
      popGuides m (guides, stack) = (guides ++ stack.take m, stack.drop m) := by
  intro m
  induction m with
  | zero => intro guides stack _; simp [popGuides]
  | succ n ih =>
    intro guides stack h
    match stack with
    | [] => simp at h
    | g :: rest =>
      simp only [popGuides]
      rw [ih (guides ++ [g]) rest (by simpa using h)]
      simp

theorem popGuidesChecked_eq :
    ∀ (m : Nat) (guides stack : List IndentGuideLayout), m ≤ stack.length →
      popGuidesChecked m (guides, stack) = some (popGuides m (guides, stack)) := by
  intro m
  induction m with
  | zero => intro guides stack _; simp [popGuides, popGuidesChecked]
  | succ n ih =>
    intro guides stack h
    match stack with
    | [] => simp at h
    | g :: rest =>
      simp only [popGuides, popGuidesChecked]
      exact ih (guides ++ [g]) rest (by simpa using h)

theorem range_reverse_split (n m : Nat) (h : m ≤ n) :
    (List.range n).reverse =
      (List.range' (n - m) m).reverse ++ (List.range (n - m)).reverse := by
  rw [← List.reverse_append]
  congr 1
  rw [List.range_eq_range', List.range_eq_range']
  have h2 : List.range' 0 (n - m) ++ List.range' (0 + 1 * (n - m)) m = List.range' 0 (m + (n - m)) :=
    List.range'_append 0 (n - m) m 1
  simp only [Nat.zero_add, Nat.one_mul] at h2
  rw [Nat.add_sub_cancel' h] at h2
  exact h2.symm

theorem range_reverse_drop (n m : Nat) (h : m ≤ n) :
    ((List.range n).reverse).drop m = (List.range (n - m)).reverse := by
  rw [range_reverse_split n m h]
  exact List.drop_left' (by simp)

theorem range_reverse_take (n m : Nat) (h : m ≤ n) :
    ((List.range n).reverse).take m = (List.range' (n - m) m).reverse := by
  rw [range_reverse_split n m h]
  exact List.take_left' (by simp)

theorem updateLengths_map_column (currentRow : Nat) (s : List IndentGuideLayout) :
    (updateLengths currentRow s).map (fun g => g.column) = s.map (fun g => g.column) := by
  simp [updateLengths, List.map_map]

theorem mem_updateLengths {currentRow : Nat} {s : List IndentGuideLayout}
    {g : IndentGuideLayout} :
    g ∈ updateLengths currentRow s ↔
      ∃ g0 ∈ s, g = { g0 with length := currentRow - g0.row + 1 } := by
  simp only [updateLengths, List.mem_map]
  constructor
  · rintro ⟨g0, hg0, rfl⟩
    exact ⟨g0, hg0, rfl⟩
  · rintro ⟨g0, hg0, rfl⟩
    exact ⟨g0, hg0, rfl⟩

theorem processRow_eq (currentRow depth : Nat)
    (guides stack : List IndentGuideLayout) :
    processRow currentRow depth (guides, stack) =
      (guides ++ stack.take (stack.length - depth),
       updateLengths currentRow
         (((List.range' stack.length (depth - stack.length)).map
            fun nd => { column := nd, row := currentRow, length := currentRow }).reverse
          ++ stack.drop (stack.length - depth))) := by
  unfold processRow
  by_cases h1 : depth < stack.length
  · simp only [h1, if_true]
    rw [popGuides_eq (stack.length - depth) guides stack (Nat.sub_le _ _)]
    have h2 : depth - stack.length = 0 := Nat.sub_eq_zero_of_le (Nat.le_of_lt h1)
    simp [h2]
  · by_cases h2 : stack.length < depth
    · simp only [h1, h2, if_false, if_true]
      rw [pushGuides_eq]
      have h3 : stack.length - depth = 0 := Nat.sub_eq_zero_of_le (Nat.le_of_lt h2)
      simp [h3]
    · simp only [h1, h2, if_false]
      have h3 : stack.length - depth = 0 := Nat.sub_eq_zero_of_le (Nat.le_of_not_lt h1)
      have h4 : depth - stack.length = 0 := Nat.sub_eq_zero_of_le (Nat.le_of_not_lt h2)
      simp [h3, h4]
theorem engineInv_step (indents : List Nat) (offset k : Nat)
    (guides stack : List IndentGuideLayout)
    (inv : EngineInv indents offset k (guides, stack)) :
    EngineInv indents offset (k + 1)
      (processRow (offset + k) (depthAt indents k) (guides, stack)) := by
  rw [processRow_eq]
  set d := depthAt indents k with hd
  set L := stack.length with hLdef
  set m := L - d with hm
  set newPart := ((List.range' L (d - L)).map
    fun nd => ({ column := nd, row := offset + k, length := offset + k } :
      IndentGuideLayout)).reverse with hnewPart
  set takePart := stack.take m with htakePart
  set dropPart := stack.drop m with hdropPart
  set stk3 := updateLengths (offset + k) (newPart ++ dropPart) with hstk3
  have hmle : m ≤ L := Nat.sub_le _ _
  have hLif := inv.stackLen
  simp only at hLif
  -- column descriptions of the three parts
  have hdropcol : dropPart.map (fun g => g.column) = (List.range (L - m)).reverse := by
    rw [hdropPart, List.map_drop, inv.stackCols, ← hLdef, range_reverse_drop L m hmle]
  have htakecol : takePart.map (fun g => g.column) = (List.range' (L - m) m).reverse := by
    rw [htakePart, List.map_take, inv.stackCols, ← hLdef, range_reverse_take L m hmle]
  have hmemNew : ∀ g0 ∈ newPart, L ≤ g0.column ∧ g0.column < L + (d - L) ∧
      g0.row = offset + k ∧ g0.length = offset + k := by
    intro g0 hg0
    rw [hnewPart, List.mem_reverse, List.mem_map] at hg0
    obtain ⟨nd, hnd, rfl⟩ := hg0
    rw [List.mem_range'_1] at hnd
    exact ⟨hnd.1, hnd.2, rfl, rfl⟩
  have hmemDropCol : ∀ g0 ∈ dropPart, g0.column < L - m := by
    intro g0 hg0
    have hcm : g0.column ∈ dropPart.map (fun g => g.column) :=
      List.mem_map_of_mem _ hg0
    rw [hdropcol, List.mem_reverse, List.mem_range] at hcm
    exact hcm
  have hmemTakeCol : ∀ g0 ∈ takePart, L - m ≤ g0.column ∧ g0.column < L := by
    intro g0 hg0
    have hcm : g0.column ∈ takePart.map (fun g => g.column) :=
      List.mem_map_of_mem _ hg0
    rw [htakecol, List.mem_reverse, List.mem_range'_1] at hcm
    exact ⟨hcm.1, by omega⟩
  have hmemStk3 : ∀ g ∈ stk3, ∃ g0, (g0 ∈ newPart ∨ g0 ∈ dropPart) ∧
      g = { g0 with length := (offset + k) - g0.row + 1 } := by
    intro g hg
    rw [hstk3, mem_updateLengths] at hg
    obtain ⟨g0, hg0, rfl⟩ := hg
    exact ⟨g0, List.mem_append.mp hg0, rfl⟩
  have hmemStk3' : ∀ g0, (g0 ∈ newPart ∨ g0 ∈ dropPart) →
      { g0 with length := (offset + k) - g0.row + 1 } ∈ stk3 := by
    intro g0 hg0
    rw [hstk3, mem_updateLengths]
    exact ⟨g0, List.mem_append.mpr hg0, rfl⟩
  -- the new stack length
  have hstk3len : stk3.length = d := by
    rw [hstk3]
    simp only [updateLengths, List.length_map, List.length_append, hnewPart,
      List.length_reverse, List.length_range', hdropPart, List.length_drop, ← hLdef]
    omega
  -- field: stackLen
  have fStackLen : stk3.length = if k + 1 = 0 then 0 else depthAt indents (k + 1 - 1) := by
    rw [hstk3len]
    simp [hd]
  -- field: stackCols
  have fStackCols : stk3.map (fun g => g.column) = (List.range stk3.length).reverse := by
    rw [hstk3len, hstk3, updateLengths_map_column, List.map_append, hdropcol]
    have hnewcol : newPart.map (fun g => g.column) = (List.range' L (d - L)).reverse := by
      rw [hnewPart, List.map_reverse, List.map_map]
      congr 1
      exact (List.map_congr_left fun x _ => rfl).trans (List.map_id _)
    rw [hnewcol]
    by_cases hdL : d ≤ L
    · have h1 : d - L = 0 := Nat.sub_eq_zero_of_le hdL
      have h2 : L - m = d := by omega
      simp [h1, h2]
    · have h1 : L - m = L := by omega
      rw [h1, range_reverse_split d (d - L) (Nat.sub_le _ _)]
      have h2 : d - (d - L) = L := by omega
      rw [h2]
  -- field: stackRow
  have fStackRow : ∀ g ∈ stk3, offset ≤ g.row ∧ g.row < offset + (k + 1) := by
    intro g hg
    obtain ⟨g0, hg0, rfl⟩ := hmemStk3 g hg
    rcases hg0 with hg0 | hg0
    · have h1 := hmemNew g0 hg0
      simp only
      omega
    · have h1 := inv.stackRow g0 (List.mem_of_mem_drop hg0)
      simp only
      omega
  -- field: stackLenEq
  have fStackLenEq : ∀ g ∈ stk3, g.length = offset + (k + 1) - g.row := by
    intro g hg
    obtain ⟨g0, hg0, rfl⟩ := hmemStk3 g hg
    rcases hg0 with hg0 | hg0
    · have h1 := hmemNew g0 hg0
      simp only
      omega
    · have h1 := inv.stackRow g0 (List.mem_of_mem_drop hg0)
      simp only
      omega
  -- field: stackSpan
  have fStackSpan : ∀ g ∈ stk3, ∀ r, g.row ≤ r → r < offset + (k + 1) →
      g.column < depthAt indents (r - offset) := by
    intro g hg r hr1 hr2
    obtain ⟨g0, hg0, rfl⟩ := hmemStk3 g hg
    simp only at hr1 ⊢
    rcases hg0 with hg0 | hg0
    · have h1 := hmemNew g0 hg0
      have hr : r - offset = k := by omega
      rw [hr, ← hd]
      omega
    · have hrow := inv.stackRow g0 (List.mem_of_mem_drop hg0)
      by_cases hrk : r < offset + k
      · exact inv.stackSpan g0 (List.mem_of_mem_drop hg0) r hr1 hrk
      · have h1 := hmemDropCol g0 hg0
        have hr : r - offset = k := by omega
        rw [hr, ← hd]
        omega
  -- field: stackOpenMax
  have fStackOpenMax : ∀ g ∈ stk3, offset < g.row →
      depthAt indents (g.row - offset - 1) ≤ g.column := by
    intro g hg hrow
    obtain ⟨g0, hg0, rfl⟩ := hmemStk3 g hg
    simp only at hrow ⊢
    rcases hg0 with hg0 | hg0
    · have h1 := hmemNew g0 hg0
      have hk0 : k ≠ 0 := by omega
      have hidx : g0.row - offset - 1 = k - 1 := by omega
      rw [hidx]
      rw [if_neg hk0] at hLif
      omega
    · exact inv.stackOpenMax g0 (List.mem_of_mem_drop hg0) hrow
  -- stack facts reused for the closed parts
  have hstackFacts : ∀ g ∈ stack,
      offset ≤ g.row ∧ g.row < offset + k ∧ g.length = offset + k - g.row :=
    fun g hg => ⟨(inv.stackRow g hg).1, (inv.stackRow g hg).2, inv.stackLenEq g hg⟩
  -- field: closedRow
  have fClosedRow : ∀ g ∈ guides ++ takePart, offset ≤ g.row ∧ 1 ≤ g.length ∧
      g.row + g.length < offset + (k + 1) := by
    intro g hg
    rcases List.mem_append.mp hg with hg | hg
    · have h1 := inv.closedRow g hg
      omega
    · have h1 := hstackFacts g (List.mem_of_mem_take hg)
      omega
  -- field: closedSpan
  have fClosedSpan : ∀ g ∈ guides ++ takePart, ∀ r, g.row ≤ r → r < g.row + g.length →
      g.column < depthAt indents (r - offset) := by
    intro g hg r hr1 hr2
    rcases List.mem_append.mp hg with hg | hg
    · exact inv.closedSpan g hg r hr1 hr2
    · have h1 := hstackFacts g (List.mem_of_mem_take hg)
      exact inv.stackSpan g (List.mem_of_mem_take hg) r hr1 (by omega)
  -- field: closedEndMax
  have fClosedEndMax : ∀ g ∈ guides ++ takePart,
      depthAt indents (g.row + g.length - offset) ≤ g.column := by
    intro g hg
    rcases List.mem_append.mp hg with hg | hg
    · exact inv.closedEndMax g hg
    · have h1 := hstackFacts g (List.mem_of_mem_take hg)
      have h2 := hmemTakeCol g hg
      have hidx : g.row + g.length - offset = k := by omega
      rw [hidx, ← hd]
      omega
  -- field: closedOpenMax
  have fClosedOpenMax : ∀ g ∈ guides ++ takePart, offset < g.row →
      depthAt indents (g.row - offset - 1) ≤ g.column := by
    intro g hg hrow
    rcases List.mem_append.mp hg with hg | hg
    · exact inv.closedOpenMax g hg hrow
    · exact inv.stackOpenMax g (List.mem_of_mem_take hg) hrow
  -- field: complete
  have fComplete : ∀ c r, offset ≤ r → r < offset + (k + 1) →
      c < depthAt indents (r - offset) →
      ∃ g ∈ (guides ++ takePart) ++ stk3, covers g c r := by
    intro c r hr1 hr2 hc
    by_cases hrk : r < offset + k
    · obtain ⟨g, hg, hcov⟩ := inv.complete c r hr1 hrk hc
      rcases List.mem_append.mp hg with hg | hg
      · exact ⟨g, List.mem_append_left _ (List.mem_append_left _ hg), hcov⟩
      · have hsplit : g ∈ takePart ++ dropPart := by
          rw [htakePart, hdropPart, List.take_append_drop]
          exact hg
        rcases List.mem_append.mp hsplit with hg2 | hg2
        · exact ⟨g, List.mem_append_left _ (List.mem_append_right _ hg2), hcov⟩
        · refine ⟨{ g with length := (offset + k) - g.row + 1 },
            List.mem_append_right _ (hmemStk3' g (Or.inr hg2)), ?_⟩
          obtain ⟨hcol, hrow1, hrow2⟩ := hcov
          have h1 := hstackFacts g (List.mem_of_mem_drop hg2)
          refine ⟨hcol, hrow1, ?_⟩
          simp only
          omega
    · -- r is the row processed in this step
      have hr : r - offset = k := by omega
      rw [hr, ← hd] at hc
      have hcmem : c ∈ stk3.map (fun g => g.column) := by
        rw [fStackCols, List.mem_reverse, List.mem_range, hstk3len]
        exact hc
      rw [List.mem_map] at hcmem
      obtain ⟨g, hg, hgc⟩ := hcmem
      refine ⟨g, List.mem_append_right _ hg, hgc.symm, ?_, ?_⟩
      · have h1 := fStackRow g hg
        omega
      · have h1 := fStackRow g hg
        have h2 := fStackLenEq g hg
        omega
  -- field: pairwiseClosed
  have hTakeNodupCol : takePart.Pairwise (fun g1 g2 => g1.column ≠ g2.column) := by
    have hnd : (takePart.map (fun g => g.column)).Nodup := by
      rw [htakecol]
      rw [List.nodup_reverse]
      exact List.nodup_range' _ _
    rw [List.Nodup, List.pairwise_map] at hnd
    exact hnd
  have fPairwiseClosed : (guides ++ takePart).Pairwise sameColDisjoint := by
    rw [List.pairwise_append]
    refine ⟨inv.pairwiseClosed, ?_, ?_⟩
    · exact hTakeNodupCol.imp fun hne => fun hcol => absurd hcol hne
    · intro g1 hg1 g2 hg2 hcol
      exact Or.inl (inv.closedBeforeStack g1 hg1 g2 (List.mem_of_mem_take hg2) hcol)
  -- field: closedBeforeStack
  have fClosedBeforeStack : ∀ g1 ∈ guides ++ takePart, ∀ g2 ∈ stk3,
      g1.column = g2.column → g1.row + g1.length ≤ g2.row := by
    intro g1 hg1 g2 hg2 hcol
    obtain ⟨g0, hg0, rfl⟩ := hmemStk3 g2 hg2
    simp only at hcol ⊢
    rcases List.mem_append.mp hg1 with hg1 | hg1
    · rcases hg0 with hg0 | hg0
      · have h1 := hmemNew g0 hg0
        have h2 := inv.closedRow g1 hg1
        omega
      · exact inv.closedBeforeStack g1 hg1 g0 (List.mem_of_mem_drop hg0) hcol
    · rcases hg0 with hg0 | hg0
      · have h1 := hmemNew g0 hg0
        have h2 := hmemTakeCol g1 hg1
        omega
      · have h1 := hmemDropCol g0 hg0
        have h2 := hmemTakeCol g1 hg1
        omega
  exact ⟨fStackLen, fStackCols, fStackRow, fStackLenEq, fStackSpan, fStackOpenMax,
    fClosedRow, fClosedSpan, fClosedEndMax, fClosedOpenMax, fComplete,
    fPairwiseClosed, fClosedBeforeStack⟩

theorem engineInv_init (indents : List Nat) (offset : Nat) :
    EngineInv indents offset 0 ([], []) := by
  refine ⟨?_, ?_, ?_, ?_, ?_, ?_, ?_, ?_, ?_, ?_, ?_, ?_, ?_⟩ <;>
    simp [List.Pairwise.nil]
  intro c r hr1 hr2
  omega

theorem depthAt_drop_head (indents : List Nat) (k : Nat) (depth : Nat)
    (rest : List Nat) (h : indents.drop k = depth :: rest) :
    depthAt indents k = depth := by
  have h2 := List.getElem?_drop indents k 0
  rw [h, Nat.add_zero] at h2
  have h1 : indents[k]? = some depth := by simpa using h2.symm
  simp [depthAt, List.getD, h1]

theorem engineInv_processRows (indents : List Nat) (offset : Nat) :
    ∀ (rest : List Nat) (k : Nat) (st : List IndentGuideLayout × List IndentGuideLayout),
      indents.drop k = rest → EngineInv indents offset k st →
      EngineInv indents offset (k + rest.length) (processRows (offset + k) rest st) := by
  intro rest
  induction rest with
  | nil =>
    intro k st _ inv
    simpa [processRows] using inv
  | cons depth rest2 ih =>
    intro k st hdrop inv
    have hdepth : depthAt indents k = depth := depthAt_drop_head indents k depth rest2 hdrop
    have hdrop2 : indents.drop (k + 1) = rest2 := by
      have h1 : (indents.drop k).drop 1 = indents.drop (k + 1) := by
        rw [List.drop_drop, Nat.add_comm]
      rw [hdrop] at h1
      simpa using h1.symm
    have hstep : EngineInv indents offset (k + 1) (processRow (offset + k) depth st) := by
      rw [← hdepth]
      obtain ⟨guides, stack⟩ := st
      exact engineInv_step indents offset k guides stack inv
    have hrec := ih (k + 1) (processRow (offset + k) depth st) hdrop2 hstep
    have harith : k + 1 + rest2.length = k + (rest2.length + 1) := by omega
    rw [harith] at hrec
    have harith2 : offset + (k + 1) = offset + k + 1 := by omega
    rw [harith2] at hrec
    simpa [processRows] using hrec

theorem engineInv_final (indents : List Nat) (offset : Nat) :
    EngineInv indents offset indents.length (processRows offset indents ([], [])) := by
  have h := engineInv_processRows indents offset indents 0 ([], []) (by simp)
    (engineInv_init indents offset)
  simpa using h

theorem compute_indent_guides_eq (indents : List Nat) (offset : Nat) :
    compute_indent_guides indents offset =
      (processRows offset indents ([], [])).1 ++
        (processRows offset indents ([], [])).2.reverse := rfl

/-- C1: the segments returned by `compute_indent_guides` cover exactly the
cells `(c, r + offset)` with `depths[r] > c`; no two segments at the same
column overlap in row range; and every segment is a maximal run — the row
just before its start and the row just after its end, when inside the
window, have depth at most the segment's column, so two maximal runs at
one column separated by a shallower row are returned as distinct
segments, never merged. -/
theorem compute_indent_guides_covers_exactly (indents : List Nat) (offset : Nat) :
    (∀ c r, (∃ g ∈ compute_indent_guides indents offset, covers g c r) ↔
      (∃ i, i < indents.length ∧ r = offset + i ∧ c < depthAt indents i))
    ∧ (compute_indent_guides indents offset).Pairwise sameColDisjoint
    ∧ ∀ g ∈ compute_indent_guides indents offset,
        (offset < g.row → depthAt indents (g.row - offset - 1) ≤ g.column)
        ∧ (g.row + g.length < offset + indents.length →
            depthAt indents (g.row + g.length - offset) ≤ g.column) := by
  have inv := engineInv_final indents offset
  set st := processRows offset indents ([], []) with hst
  have hmem : ∀ g, g ∈ compute_indent_guides indents offset ↔ (g ∈ st.1 ∨ g ∈ st.2) := by
    intro g
    rw [compute_indent_guides_eq, ← hst]
    simp [List.mem_append]
  have hbounds : ∀ g, (g ∈ st.1 ∨ g ∈ st.2) →
      offset ≤ g.row ∧ 1 ≤ g.length ∧ g.row + g.length ≤ offset + indents.length := by
    intro g hg
    rcases hg with hg | hg
    · have h1 := inv.closedRow g hg
      omega
    · have h1 := inv.stackRow g hg
      have h2 := inv.stackLenEq g hg
      omega
  have hspan : ∀ g, (g ∈ st.1 ∨ g ∈ st.2) → ∀ r, g.row ≤ r → r < g.row + g.length →
      g.column < depthAt indents (r - offset) := by
    intro g hg r hr1 hr2
    rcases hg with hg | hg
    · exact inv.closedSpan g hg r hr1 hr2
    · have h1 := inv.stackRow g hg
      have h2 := inv.stackLenEq g hg
      exact inv.stackSpan g hg r hr1 (by omega)
  have hopenmax : ∀ g, (g ∈ st.1 ∨ g ∈ st.2) → offset < g.row →
      depthAt indents (g.row - offset - 1) ≤ g.column := by
    intro g hg
    rcases hg with hg | hg
    · exact inv.closedOpenMax g hg
    · exact inv.stackOpenMax g hg
  have hendmax : ∀ g, (g ∈ st.1 ∨ g ∈ st.2) →
      g.row + g.length < offset + indents.length →
      depthAt indents (g.row + g.length - offset) ≤ g.column := by
    intro g hg hlt
    rcases hg with hg | hg
    · exact inv.closedEndMax g hg
    · have h1 := inv.stackRow g hg
      have h2 := inv.stackLenEq g hg
      omega
  refine ⟨?_, ?_, ?_⟩
  · intro c r
    constructor
    · rintro ⟨g, hg, hcov⟩
      obtain ⟨hcol, hr1, hr2⟩ := hcov
      have h1 := hbounds g ((hmem g).mp hg)
      refine ⟨r - offset, by omega, by omega, ?_⟩
      have h2 := hspan g ((hmem g).mp hg) r hr1 hr2
      omega
    · rintro ⟨i, hi, rfl, hc⟩
      have hidx : offset + i - offset = i := by omega
      obtain ⟨g, hg, hcov⟩ := inv.complete c (offset + i) (by omega) (by omega)
        (by rw [hidx]; exact hc)
      exact ⟨g, (hmem g).mpr (List.mem_append.mp hg), hcov⟩
  · rw [compute_indent_guides_eq, ← hst, List.pairwise_append]
    refine ⟨inv.pairwiseClosed, ?_, ?_⟩
    · have hnd : (st.2.map (fun g => g.column)).Nodup := by
        rw [inv.stackCols, List.nodup_reverse]
        exact List.nodup_range _
      rw [List.Nodup, List.pairwise_map] at hnd
      refine List.pairwise_reverse.mpr (hnd.imp ?_)
      intro a b hne hcol
      exact absurd hcol.symm hne
    · intro g1 hg1 g2 hg2 hcol
      rw [List.mem_reverse] at hg2
      exact Or.inl (inv.closedBeforeStack g1 hg1 g2 hg2 hcol)
  · intro g hg
    exact ⟨hopenmax g ((hmem g).mp hg), hendmax g ((hmem g).mp hg)⟩

theorem processRowChecked_eq (currentRow depth : Nat)
    (guides stack : List IndentGuideLayout) :
    processRowChecked currentRow depth (guides, stack) =
      some (processRow currentRow depth (guides, stack)) := by
  unfold processRowChecked processRow
  by_cases h1 : depth < stack.length
  · simp only [h1, if_true]
    rw [popGuidesChecked_eq (stack.length - depth) guides stack (Nat.sub_le _ _)]
  · by_cases h2 : stack.length < depth <;> simp [h1, h2]

theorem processRowsChecked_eq :
    ∀ (indents : List Nat) (currentRow : Nat)
      (st : List IndentGuideLayout × List IndentGuideLayout),
      processRowsChecked currentRow indents st = some (processRows currentRow indents st) := by
  intro indents
  induction indents with
  | nil => intro currentRow st; rfl
  | cons depth rest ih =>
    intro currentRow st
    unfold processRowsChecked processRows
    obtain ⟨guides, stack⟩ := st
    rw [processRowChecked_eq]
    exact ih (currentRow + 1) _

/-- C9: the `None` arm of the `indent_stack.pop()` in the depth-decrease
branch is unreachable — the loop pops `current_depth - d` elements from a
stack holding `current_depth` elements — so the version that fails on
underflow always succeeds and returns exactly what the lenient source
computes, for every input sequence and offset. -/
theorem compute_indent_guides_no_underflow (indents : List Nat) (offset : Nat) :
    compute_indent_guides_checked indents offset =
      some (compute_indent_guides indents offset) := by
  unfold compute_indent_guides_checked compute_indent_guides
  rw [processRowsChecked_eq]

theorem compute_mem_split (indents : List Nat) (offset : Nat) (g : IndentGuideLayout)
    (hg : g ∈ compute_indent_guides indents offset) :
    g ∈ (processRows offset indents ([], [])).1 ∨
      g ∈ (processRows offset indents ([], [])).2 := by
  rw [compute_indent_guides_eq] at hg
  rcases List.mem_append.mp hg with hg | hg
  · exact Or.inl hg
  · exact Or.inr (List.mem_reverse.mp hg)

/-- C10 (amended): every returned segment lies within the processed window
and is non-degenerate: `offset ≤ start_row < offset + len(depths)`,
`1 ≤ length`, and `start_row + length ≤ offset + len(depths)`; the
placeholder length assigned when a guide is opened is always overwritten
in the same iteration (hence `1 ≤ length` even for a guide opened at
absolute row 0, whose placeholder is 0) — but a returned segment may
coincidentally have a length equal to its absolute start row. -/
theorem compute_indent_guides_window_bounds (indents : List Nat) (offset : Nat)
    (g : IndentGuideLayout) (hg : g ∈ compute_indent_guides indents offset) :
    offset ≤ g.row ∧ g.row < offset + indents.length ∧ 1 ≤ g.length ∧
      g.row + g.length ≤ offset + indents.length := by
  have inv := engineInv_final indents offset
  rcases compute_mem_split indents offset g hg with hg2 | hg2
  · have h1 := inv.closedRow g hg2
    omega
  · have h1 := inv.stackRow g hg2
    have h2 := inv.stackLenEq g hg2
    omega

/-- C10 witness: the segment at column 0, rows 1..4 of the depth window
`[0,1,2,2,1,0]` at offset 0 satisfies the window bounds. -/
theorem compute_indent_guides_window_bounds_witness :
    ((⟨0, 1, 4⟩ : IndentGuideLayout) ∈ compute_indent_guides [0, 1, 2, 2, 1, 0] 0) ∧
      (0 ≤ 1 ∧ 1 < 0 + 6 ∧ 1 ≤ 4 ∧ 1 + 4 ≤ 0 + 6) := by
  have hmem : (⟨0, 1, 4⟩ : IndentGuideLayout) ∈ compute_indent_guides [0, 1, 2, 2, 1, 0] 0 := by
    decide
  exact ⟨hmem, compute_indent_guides_window_bounds [0, 1, 2, 2, 1, 0] 0 ⟨0, 1, 4⟩ hmem⟩

/-- C10 counterexample: the claim that no returned segment carries a length
equal to its absolute start row fails on `[0, 1]` at offset 0, which
returns the single segment column 0, start row 1, length 1. -/
theorem compute_indent_guides_length_eq_row_counterexample :
    ¬ ∀ g ∈ compute_indent_guides [0, 1] 0, g.length ≠ g.row := by decide

/-- C2 counterexample: for the one-row window `[1]` starting at visible row
1 (origin 0, indent size 1, item height 10), the source places the
rectangle at `y = start_row * item_height = 10`, while the claim's
window-relative formula places it at `y = (start_row - row_offset) *
item_height = 0`. -/
theorem prepaint_fn_not_window_relative :
    prepaint_fn [1] 1 0 0 1 10 ≠ prepaint_fn_window_relative [1] 1 0 0 1 10 := by
  have hc : compute_indent_guides [1] 1 = [⟨0, 1, 1⟩] := by decide
  have h1 : prepaint_fn [1] 1 0 0 1 10 = [{ x := 0, y := 10, w := 1, h := 10 }] := by
    simp only [prepaint_fn, hc, List.map_cons, List.map_nil]
    norm_num
  have h2 : prepaint_fn_window_relative [1] 1 0 0 1 10 =
      [{ x := 0, y := 0, w := 1, h := 10 }] := by
    simp only [prepaint_fn_window_relative, hc, List.map_cons, List.map_nil]
    norm_num
  rw [h1, h2]
  simp only [ne_eq, List.cons.injEq, GuideRect.mk.injEq]
  norm_num

/-- C2 (amended): the decoration's prepaint step maps each engine segment
to the rectangle with origin `bounds.origin + (column * indent_unit_width,
start_row * row_height)` — the vertical offset is proportional to the
absolute start row, not window-relative — and size `(1 px hairline,
length * row_height)`. -/
theorem prepaint_fn_rects (visibleEntries : List Nat) (visibleStart : Nat)
    (originX originY indentSize itemHeight : ℚ) (rect : GuideRect) :
    rect ∈ prepaint_fn visibleEntries visibleStart originX originY indentSize itemHeight ↔
      ∃ g ∈ compute_indent_guides visibleEntries visibleStart,
        rect = { x := originX + (g.column : ℚ) * indentSize
                 y := originY + (g.row : ℚ) * itemHeight
                 w := 1
                 h := (g.length : ℚ) * itemHeight } := by
  simp only [prepaint_fn, List.mem_map]
  constructor
  · rintro ⟨g, hg, rfl⟩
    exact ⟨g, hg, rfl⟩
  · rintro ⟨g, hg, rfl⟩
    exact ⟨g, hg, rfl⟩

theorem percentage_adjust (p x : ℚ) :
    (if 0 < clampQ x 0 1 then p - clampQ x 0 1 else p) = p - clampQ x 0 1 := by
  split_ifs with h
  · rfl
  · have h0 : clampQ x 0 1 = 0 :=
      le_antisymm (not_lt.mp h) (le_max_left 0 _)
    rw [h0, sub_zero]

theorem render_vertical_scrollbar_some_eq (a c offsetY viewportHeight : ℚ) :
    render_vertical_scrollbar (some a) (some c) offsetY viewportHeight =
      (if 1 < specStartFraction c offsetY viewportHeight + minimumScrollbarPercentageHeight ∨
          c < specRawEnd c offsetY viewportHeight then none
       else if c < viewportHeight then none
       else some (specStartFraction c offsetY viewportHeight,
         clampQ (specRawEnd c offsetY viewportHeight)
           (specStartFraction c offsetY viewportHeight + minimumScrollbarPercentageHeight) 1)) := by
  unfold render_vertical_scrollbar specStartFraction specRawEnd
  simp only [Option.filter, Option.isSome, if_true, percentage_adjust]

theorem specStartFraction_nonneg (c offsetY viewportHeight : ℚ) (hc : 0 < c)
    (hvp : viewportHeight ≤ c) : 0 ≤ specStartFraction c offsetY viewportHeight := by
  have hp : 0 ≤ |min offsetY 0| / c := div_nonneg (abs_nonneg _) hc.le
  have hvc1 : viewportHeight / c ≤ 1 := (div_le_one hc).mpr hvp
  have hraw : specRawEnd c offsetY viewportHeight =
      |min offsetY 0| / c + viewportHeight / c := by
    unfold specRawEnd
    rw [add_div]
  unfold specStartFraction
  rcases le_total (specRawEnd c offsetY viewportHeight - 1) 0 with hx | hx
  · have hcl : clampQ (specRawEnd c offsetY viewportHeight - 1) 0 1 = 0 := by
      unfold clampQ
      have hmin : min (specRawEnd c offsetY viewportHeight - 1) 1 =
          specRawEnd c offsetY viewportHeight - 1 := min_eq_left (by linarith)
      rw [hmin]
      exact max_eq_left hx
    rw [hcl]
    linarith
  · rcases le_total (specRawEnd c offsetY viewportHeight - 1) 1 with hy | hy
    · have hcl : clampQ (specRawEnd c offsetY viewportHeight - 1) 0 1 =
          specRawEnd c offsetY viewportHeight - 1 := by
        unfold clampQ
        rw [min_eq_left hy]
        exact max_eq_right hx
      rw [hcl, hraw]
      linarith
    · have hcl : clampQ (specRawEnd c offsetY viewportHeight - 1) 0 1 = 1 := by
        unfold clampQ
        rw [min_eq_right hy]
        exact max_eq_right (by linarith)
      rw [hcl]
      rw [hraw] at hy
      linarith

/-- C5: every thumb range the geometry returns satisfies
`0 ≤ start ≤ end ≤ 1` and `start + 0.005 ≤ end`, for every scroll offset,
viewport length and positive content length that yields a thumb. -/
theorem visible_thumb_range_invariant (drag : Option ℚ) (c offsetY viewportHeight s e : ℚ)
    (hc : 0 < c)
    (h : render_vertical_scrollbar drag (some c) offsetY viewportHeight = some (s, e)) :
    0 ≤ s ∧ s ≤ e ∧ e ≤ 1 ∧ s + minimumScrollbarPercentageHeight ≤ e := by
  cases drag with
  | none => simp [render_vertical_scrollbar, Option.filter] at h
  | some a =>
    rw [render_vertical_scrollbar_some_eq] at h
    split_ifs at h with h1 h2
    push_neg at h1
    obtain ⟨h1a, _⟩ := h1
    have hvp : viewportHeight ≤ c := not_lt.mp h2
    have hse := Option.some.inj h
    have hs : specStartFraction c offsetY viewportHeight = s := congrArg Prod.fst hse
    have he : clampQ (specRawEnd c offsetY viewportHeight)
        (specStartFraction c offsetY viewportHeight + minimumScrollbarPercentageHeight) 1 = e :=
      congrArg Prod.snd hse
    rw [hs] at h1a he
    have hm : (0:ℚ) < minimumScrollbarPercentageHeight := by
      norm_num [minimumScrollbarPercentageHeight]
    have hs0 : 0 ≤ s := hs ▸ specStartFraction_nonneg c offsetY viewportHeight hc hvp
    have hsme : s + minimumScrollbarPercentageHeight ≤ e := by
      rw [← he]
      exact le_max_left _ _
    have he1 : e ≤ 1 := by
      rw [← he]
      unfold clampQ
      exact max_le h1a (min_le_right _ _)
    exact ⟨hs0, by linarith, he1, hsme⟩

/-- C5 witness: for offset 0, viewport 100, content 1000 (with a drag
context tracked) the geometry returns the thumb `[0, 1/10]`, which
satisfies the invariant. -/
theorem visible_thumb_range_invariant_witness :
    render_vertical_scrollbar (some 0) (some 1000) 0 100 = some (0, 1/10) ∧ (0:ℚ) < 1000 ∧
      ((0:ℚ) ≤ 0 ∧ (0:ℚ) ≤ 1/10 ∧ (1/10:ℚ) ≤ 1 ∧
        (0:ℚ) + minimumScrollbarPercentageHeight ≤ 1/10) := by
  have h : render_vertical_scrollbar (some 0) (some 1000) 0 100 = some (0, 1/10) := by
    rw [render_vertical_scrollbar_some_eq]
    norm_num [specStartFraction, specRawEnd, clampQ, minimumScrollbarPercentageHeight,
      min_def, max_def]
  exact ⟨h, by norm_num,
    visible_thumb_range_invariant (some 0) 1000 0 100 0 (1/10) (by norm_num) h⟩

/-- C3 (amended): whenever the returned thumb's raw end fraction
`(|offset| + viewport_len) / content_len` exceeds 1, the returned end is
clamped to 1 and the returned start is the raw start fraction minus the
excess (raw end minus 1, itself clamped to `[0,1]`); when additionally
the raw end is at most 2 — so the excess is below its 1.0 cap — the
returned thumb length is exactly `viewport_len / content_len`. -/
theorem overshoot_preserves_thumb_length (drag : Option ℚ) (c offsetY viewportHeight s e : ℚ)
    (hc : 0 < c)
    (h : render_vertical_scrollbar drag (some c) offsetY viewportHeight = some (s, e))
    (hover : 1 < specRawEnd c offsetY viewportHeight) :
    e = 1 ∧
      s = |min offsetY 0| / c - clampQ (specRawEnd c offsetY viewportHeight - 1) 0 1 ∧
      (specRawEnd c offsetY viewportHeight ≤ 2 → e - s = viewportHeight / c) := by
  cases drag with
  | none => simp [render_vertical_scrollbar, Option.filter] at h
  | some a =>
    rw [render_vertical_scrollbar_some_eq] at h
    split_ifs at h with h1 h2
    push_neg at h1
    obtain ⟨h1a, _⟩ := h1
    have hse := Option.some.inj h
    have hs : specStartFraction c offsetY viewportHeight = s := congrArg Prod.fst hse
    have he : clampQ (specRawEnd c offsetY viewportHeight)
        (specStartFraction c offsetY viewportHeight + minimumScrollbarPercentageHeight) 1 = e :=
      congrArg Prod.snd hse
    rw [hs] at h1a he
    have he1 : e = 1 := by
      rw [← he]
      unfold clampQ
      rw [min_eq_right hover.le, max_eq_right h1a]
    have hsub : s = |min offsetY 0| / c - clampQ (specRawEnd c offsetY viewportHeight - 1) 0 1 := by
      rw [← hs]
      unfold specStartFraction
      rfl
    have hraw : specRawEnd c offsetY viewportHeight =
        |min offsetY 0| / c + viewportHeight / c := by
      unfold specRawEnd
      rw [add_div]
    refine ⟨he1, hsub, ?_⟩
    intro hcap
    have hclamp : clampQ (specRawEnd c offsetY viewportHeight - 1) 0 1 =
        specRawEnd c offsetY viewportHeight - 1 := by
      unfold clampQ
      have hmin : min (specRawEnd c offsetY viewportHeight - 1) 1 =
          specRawEnd c offsetY viewportHeight - 1 := min_eq_left (by linarith)
      rw [hmin]
      exact max_eq_right (by linarith)
    have hsval : s = 1 - viewportHeight / c := by
      rw [hsub, hclamp, hraw]
      ring
    rw [he1, hsval]
    ring

/-- C3 witness: the claim's concrete case — offset −950, viewport 100,
content 1000 — returns the range `[9/10, 1]`: the end is clamped to 1,
the start is the raw start minus the excess, and the thumb length is
`100 / 1000 = 1/10`. -/
theorem overshoot_preserves_thumb_length_witness :
    render_vertical_scrollbar (some 0) (some 1000) (-950) 100 = some (9/10, 1) ∧
      (0:ℚ) < 1000 ∧ 1 < specRawEnd 1000 (-950) 100 ∧
      ((1:ℚ) = 1 ∧
        (9/10 : ℚ) = |min (-950 : ℚ) 0| / 1000 - clampQ (specRawEnd 1000 (-950) 100 - 1) 0 1 ∧
        (specRawEnd 1000 (-950) 100 ≤ 2 → (1:ℚ) - 9/10 = 100 / 1000)) := by
  have h : render_vertical_scrollbar (some 0) (some 1000) (-950) 100 = some (9/10, 1) := by
    rw [render_vertical_scrollbar_some_eq]
    norm_num [specStartFraction, specRawEnd, clampQ, minimumScrollbarPercentageHeight,
      min_def, max_def]
  have hover : 1 < specRawEnd 1000 (-950) 100 := by
    norm_num [specRawEnd, min_def]
  exact ⟨h, by norm_num, hover,
    overshoot_preserves_thumb_length (some 0) 1000 (-950) 100 (9/10) 1 (by norm_num) h hover⟩

/-- C3 counterexample: for offset −1900, viewport 200, content 1000 the
raw end fraction is 21/10 > 1 and a thumb is returned, but its length is
1/10, not `viewport_len / content_len = 1/5` — the excess hits its 1.0
cap and the thumb length is not preserved, refuting the claim as stated. -/
theorem overshoot_thumb_length_counterexample :
    render_vertical_scrollbar (some 0) (some 1000) (-1900) 200 = some (9/10, 1) ∧
      1 < specRawEnd 1000 (-1900) 200 ∧ (1:ℚ) - 9/10 ≠ 200 / 1000 := by
  refine ⟨?_, ?_, by norm_num⟩
  · rw [render_vertical_scrollbar_some_eq]
    norm_num [specStartFraction, specRawEnd, clampQ, minimumScrollbarPercentageHeight,
      min_def, max_def]
  · norm_num [specRawEnd, min_def]

/-- C4 (amended): the geometry returns no thumb exactly when no drag
context or content size is tracked, or the content is strictly smaller
than the viewport, or the start fraction plus the 0.005 minimum thumb
size would exceed 1, or the computed end fraction exceeds the known
content length; in all these cases the result is `none`, never an
error. -/
theorem render_vertical_scrollbar_none_iff (drag content : Option ℚ)
    (offsetY viewportHeight : ℚ) :
    render_vertical_scrollbar drag content offsetY viewportHeight = none ↔
      thumbHiddenAmended drag content offsetY viewportHeight := by
  cases drag with
  | none =>
    cases content <;>
      simp [render_vertical_scrollbar, Option.filter, thumbHiddenAmended]
  | some a =>
    cases content with
    | none => simp [render_vertical_scrollbar, Option.filter, thumbHiddenAmended]
    | some c =>
      rw [render_vertical_scrollbar_some_eq]
      show _ ↔ (c < viewportHeight ∨ _ ∨ _)
      split_ifs with h1 h2
      · simp only [true_iff]
        tauto
      · simp only [true_iff]
        tauto
      · push_neg at h1
        simp only [reduceCtorEq, false_iff, not_or, not_lt]
        exact ⟨not_lt.mp h2, h1.1, h1.2⟩

/-- C4 counterexample: at content length = viewport length = 100 (offset
0, drag context present) the claim's condition list says the thumb is
hidden (`content_len_px <= viewport_len_px`), but the source returns the
full-track thumb `[0, 1]` — the source's content-fits test is strict. -/
theorem render_vertical_scrollbar_none_iff_counterexample :
    ¬ (render_vertical_scrollbar (some 0) (some 100) 0 100 = none ↔
        thumbHiddenSpec (some 0) (some 100) 0 100) := by
  intro h
  have h1 : thumbHiddenSpec (some 0) (some 100) 0 100 := by
    show (100:ℚ) ≤ 100 ∨ _ ∨ _
    exact Or.inl le_rfl
  have h2 := h.mpr h1
  have h3 : render_vertical_scrollbar (some 0) (some 100) 0 100 = some (0, 1) := by
    rw [render_vertical_scrollbar_some_eq]
    norm_num [specStartFraction, specRawEnd, clampQ, minimumScrollbarPercentageHeight,
      min_def, max_def]
  rw [h3] at h2
  exact Option.noConfusion h2

/-- C6: a mouse-down inside the track but outside the thumb, with a
content size tracked, jumps: the target fraction is computed from the
click position relative to the track bounds, clamped to at most
`1 - thumb_percentage_size` (keeping the thumb's far edge at or below 1),
the scroll offset along the scrollbar's axis is set to minus that
fraction times the content length along that axis, and the drag state
stays Idle. -/
theorem mouse_down_track_jump (kind : ScrollbarKind) (bounds thumbBounds : QBounds)
    (w h ts posX posY : ℚ) (st : MouseState)
    (hin : containsPoint bounds posX posY = true)
    (hout : containsPoint thumbBounds posX posY = false)
    (hidle : st.drag = none) :
    ∃ f : ℚ,
      onMouseDown kind true bounds thumbBounds (some (w, h)) ts posX posY st =
        (match kind with
         | ScrollbarKind.Horizontal => { st with offsetX := -w * f }
         | ScrollbarKind.Vertical => { st with offsetY := -h * f })
      ∧ f = min (match kind with
          | ScrollbarKind.Horizontal => (posX - bounds.originX) / bounds.width
          | ScrollbarKind.Vertical => (posY - bounds.originY) / bounds.height) (1 - ts)
      ∧ f ≤ 1 - ts
      ∧ (onMouseDown kind true bounds thumbBounds (some (w, h)) ts posX posY st).drag = none := by
  cases kind with
  | Horizontal =>
    refine ⟨min ((posX - bounds.originX) / bounds.width) (1 - ts), ?_, rfl, min_le_right _ _, ?_⟩
    · simp [onMouseDown, hin, hout]
    · simp [onMouseDown, hin, hout, hidle]
  | Vertical =>
    refine ⟨min ((posY - bounds.originY) / bounds.height) (1 - ts), ?_, rfl, min_le_right _ _, ?_⟩
    · simp [onMouseDown, hin, hout]
    · simp [onMouseDown, hin, hout, hidle]

/-- C6 witness: a vertical-scrollbar click at (5, 60) inside the track
bounds (0,0)–(12,100) but outside the thumb (0,20)–(12,50), with content
size (500, 1000) and thumb size 3/10, from the Idle state. -/
theorem mouse_down_track_jump_witness :
    containsPoint ⟨0, 0, 12, 100⟩ 5 60 = true ∧
    containsPoint ⟨0, 20, 12, 30⟩ 5 60 = false ∧
    (⟨none, 7, 8⟩ : MouseState).drag = none ∧
    ∃ f : ℚ,
      onMouseDown ScrollbarKind.Vertical true ⟨0, 0, 12, 100⟩ ⟨0, 20, 12, 30⟩
          (some (500, 1000)) (3/10) 5 60 ⟨none, 7, 8⟩ =
        (match ScrollbarKind.Vertical with
         | ScrollbarKind.Horizontal => { (⟨none, 7, 8⟩ : MouseState) with offsetX := -500 * f }
         | ScrollbarKind.Vertical => { (⟨none, 7, 8⟩ : MouseState) with offsetY := -1000 * f })
      ∧ f = min (match ScrollbarKind.Vertical with
          | ScrollbarKind.Horizontal => ((5:ℚ) - 0) / 12
          | ScrollbarKind.Vertical => ((60:ℚ) - 0) / 100) (1 - 3/10)
      ∧ f ≤ 1 - 3/10
      ∧ (onMouseDown ScrollbarKind.Vertical true ⟨0, 0, 12, 100⟩ ⟨0, 20, 12, 30⟩
          (some (500, 1000)) (3/10) 5 60 ⟨none, 7, 8⟩).drag = none := by
  have hin : containsPoint ⟨0, 0, 12, 100⟩ 5 60 = true := by
    norm_num [containsPoint]
  have hout : containsPoint ⟨0, 20, 12, 30⟩ 5 60 = false := by
    norm_num [containsPoint]
  exact ⟨hin, hout, rfl,
    mouse_down_track_jump ScrollbarKind.Vertical ⟨0, 0, 12, 100⟩ ⟨0, 20, 12, 30⟩
      500 1000 (3/10) 5 60 ⟨none, 7, 8⟩ hin hout rfl⟩

/-- C7: processing a mouse-up event (handler run in the capture phase and
then in the bubble phase) always leaves the drag state Idle, whatever the
prior state was, and does not touch the scroll offset. -/
theorem mouse_up_clears_drag (st : MouseState) :
    (processMouseUp st).drag = none ∧ (processMouseUp st).offsetX = st.offsetX ∧
      (processMouseUp st).offsetY = st.offsetY := by
  simp [processMouseUp, onMouseUp]

/-- C8: the mouse-move handler is total over Idle and Dragging; whenever
no drag is effectively active — the stored anchor is absent or the device
no longer reports an active drag — it resolves the state to Idle without
modifying the scroll offset, for every position, bounds, kind, and
tracked content size (in particular for a move with no preceding
mouse-down). -/
theorem mouse_move_no_drag_idle (kind : ScrollbarKind) (dragging : Bool)
    (bounds : QBounds) (lastItemSize : Option (ℚ × ℚ)) (ts posX posY : ℚ)
    (st : MouseState) (hno : st.drag = none ∨ dragging = false) :
    onMouseMove kind dragging bounds lastItemSize ts posX posY st =
      { st with drag := none } := by
  rcases hno with hno | hno
  · simp [onMouseMove, hno, Option.filter]
  · simp [onMouseMove, hno, Option.filter]
    cases st.drag <;> rfl

/-- C8 witness: a move event with a stored anchor but no active device
drag (and also, via the theorem, one with no preceding mouse-down)
resolves to Idle with the offset untouched. -/
theorem mouse_move_no_drag_idle_witness :
    ((⟨some (1/5), 3, 4⟩ : MouseState).drag = none ∨ false = false) ∧
      onMouseMove ScrollbarKind.Vertical false ⟨0, 0, 12, 100⟩ (some (1, 1000))
        (1/10) 5 60 ⟨some (1/5), 3, 4⟩ = ⟨none, 3, 4⟩ := by
  exact ⟨Or.inr rfl,
    mouse_move_no_drag_idle ScrollbarKind.Vertical false ⟨0, 0, 12, 100⟩
      (some (1, 1000)) (1/10) 5 60 ⟨some (1/5), 3, 4⟩ (Or.inr rfl)⟩
